import Mathlib

/-!
Verification development for the studia-app repository.

Part 1 models the chunked secure-storage adapter
(`ChunkedSecureStoreAdapter` in the Supabase client module): strings are
lists of characters, the secure-store backend is a partial map from key
strings to value strings, and `getItem` / `setItem` / `removeItem` are
translated operation by operation from the TypeScript source.

Part 2 models the `analyze-material` Supabase edge function as a pure
function over an environment that supplies the outcome of every external
effect (request body, token verification, storage download, AI provider
responses, JSON parsing, database insert result).
-/

/-- Strings are modelled as lists of characters. -/
abbrev Str := List Char

/-- Coerce a Lean string literal into the character-list model. -/
def str (s : String) : Str := s.data

/-- Decimal digit character for a single digit (model of JS number printing). -/
def digitChar (d : Nat) : Char :=
  match d with
  | 0 => '0' | 1 => '1' | 2 => '2' | 3 => '3' | 4 => '4'
  | 5 => '5' | 6 => '6' | 7 => '7' | 8 => '8' | _ => '9'

/-- Fuel-based decimal rendering (structural recursion so that the
kernel can evaluate it; the fuel is always sufficient at the call site). -/
def natReprAux : Nat → Nat → Str
  | 0, _ => []
  | fuel + 1, n =>
    if n < 10 then [digitChar n]
    else natReprAux fuel (n / 10) ++ [digitChar (n % 10)]

/-- Decimal rendering of a natural number, the model of JavaScript
`String(n)` / template interpolation of the chunk index. -/
def natRepr (n : Nat) : Str := natReprAux (n + 1) n

theorem natReprAux_irrel : ∀ f₁ f₂ n, n < f₁ → n < f₂ → natReprAux f₁ n = natReprAux f₂ n := by
  intro f₁
  induction f₁ with
  | zero => intro f₂ n h _; omega
  | succ f ih =>
    intro f₂ n h1 h2
    cases f₂ with
    | zero => omega
    | succ f₂' =>
      by_cases hn : n < 10
      · simp [natReprAux, hn]
      · have hd : n / 10 < n := Nat.div_lt_self (by omega) (by omega)
        simp only [natReprAux, if_neg hn]
        rw [ih f₂' (n / 10) (by omega) (by omega)]

theorem natRepr_unfold (n : Nat) :
    natRepr n = if n < 10 then [digitChar n] else natRepr (n / 10) ++ [digitChar (n % 10)] := by
  show natReprAux (n + 1) n = _
  by_cases hn : n < 10
  · simp [natReprAux, hn]
  · have hd : n / 10 < n := Nat.div_lt_self (by omega) (by omega)
    simp only [natReprAux, if_neg hn]
    rw [natReprAux_irrel n (n / 10 + 1) (n / 10) (by omega) (by omega)]
    rfl

/-- ASCII decimal digit test, as used by JS `parseInt` scanning. -/
def isDigit (c : Char) : Bool := 48 ≤ c.toNat && c.toNat ≤ 57

/-- Numeric value of a digit string (most significant first). -/
def digitsVal (l : Str) : Nat := l.foldl (fun a c => a * 10 + (c.toNat - 48)) 0

/-- JS whitespace characters skipped by `parseInt`. -/
def jsWs (c : Char) : Bool := c = ' ' || c = '\t' || c = '\n' || c = '\r'

/-- Model of JavaScript `parseInt(s, 10)`: skip leading whitespace, an
optional sign, then the longest prefix of decimal digits; `none` models
`NaN` (no digits found). -/
def parseIntJS (s : Str) : Option Int :=
  match s.dropWhile jsWs with
  | [] => none
  | c :: rest =>
    if c = '-' then
      if (rest.takeWhile isDigit) = [] then none
      else some (-(digitsVal (rest.takeWhile isDigit) : Int))
    else if c = '+' then
      if (rest.takeWhile isDigit) = [] then none
      else some ((digitsVal (rest.takeWhile isDigit) : Int))
    else
      if ((c :: rest).takeWhile isDigit) = [] then none
      else some ((digitsVal ((c :: rest).takeWhile isDigit) : Int))

/-- Number of iterations of a JS loop `for (let i = 0; i < n; i++)` where
`n` is the result of `parseInt` (comparisons with `NaN` are false, so a
`NaN` or non-positive bound yields zero iterations). -/
def loopCount (o : Option Int) : Nat :=
  match o with
  | none => 0
  | some z => z.toNat

/-- The secure-store backend: a partial map from key strings to values.
The adapter's `catch` branches model backend exceptions; the backend map
itself is modelled as reliable, so those branches are dead code here. -/
abbrev Store := Str → Option Str

/-- Backend write (`SecureStore.setItemAsync`). -/
def setK (s : Store) (k v : Str) : Store := fun k' => if k' = k then some v else s k'

/-- Backend delete (`SecureStore.deleteItemAsync`). -/
def delK (s : Store) (k : Str) : Store := fun k' => if k' = k then none else s k'

/-- The empty backend state. -/
def emptyStore : Store := fun _ => none

/-- Source: `const CHUNK_SIZE = 1800;`. -/
def CHUNK_SIZE : Nat := 1800

/-- Derived marker key, source template `${key}_chunkCount`. -/
def chunkCountKey (k : Str) : Str := k ++ str "_chunkCount"

/-- Derived chunk key, source template `${key}_chunk_${i}`. -/
def chunkKey (k : Str) (i : Nat) : Str := k ++ str "_chunk_" ++ natRepr i

/-- A single backend operation, used to expose the write sequence of
`setItem` so that interrupted (prefix) executions can be analysed. -/
inductive Op where
  | setO (key val : Str)
  | delO (key : Str)
deriving DecidableEq

/-- Apply one backend operation. -/
def applyOp (s : Store) : Op → Store
  | .setO key val => setK s key val
  | .delO key => delK s key

/-- Apply a sequence of backend operations in order. -/
def applyOps (s : Store) (ops : List Op) : Store := ops.foldl applyOp s

/-- The chunk list produced by the `for (let i = 0; i < value.length; i += CHUNK_SIZE)`
slicing loop of `setItem`: contiguous slices of at most `CHUNK_SIZE`. -/
def chunksOfAux : Nat → Str → List Str
  | 0, _ => []
  | fuel + 1, v =>
    if v = [] then []
    else if v.length ≤ CHUNK_SIZE then [v]
    else v.take CHUNK_SIZE :: chunksOfAux fuel (v.drop CHUNK_SIZE)

def chunksOf (v : Str) : List Str := chunksOfAux (v.length + 1) v

/-- The chunk-body writes of the chunked branch of `setItem`, starting at
index `j`. -/
def chunkOps (k : Str) (cs : List Str) (j : Nat) : List Op :=
  match cs with
  | [] => []
  | c :: rest => Op.setO (chunkKey k j) c :: chunkOps k rest (j + 1)

/-- The full backend write sequence of `ChunkedSecureStoreAdapter.setItem`:
direct write plus marker cleanup when the value fits, otherwise all chunk
bodies, then the chunk-count marker, then deletion of the direct key. -/
def setItemOps (k v : Str) : List Op :=
  if v.length ≤ CHUNK_SIZE then
    [Op.setO k v, Op.delO (chunkCountKey k)]
  else
    chunkOps k (chunksOf v) 0 ++
      [Op.setO (chunkCountKey k) (natRepr (chunksOf v).length), Op.delO k]

/-- Source `ChunkedSecureStoreAdapter.setItem`, as the composite effect of its
write sequence on the backend state. -/
def setItem (s : Store) (k v : Str) : Store := applyOps s (setItemOps k v)

/-- The chunk-reading loop of `getItem`: read `m` chunks starting at index
`i`; any missing chunk aborts the whole read (`return null`). -/
def readChunks (s : Store) (k : Str) : Nat → Nat → Option (List Str)
  | _, 0 => some []
  | i, m + 1 =>
    match s (chunkKey k i) with
    | none => none
    | some c =>
      match readChunks s k (i + 1) m with
      | none => none
      | some rest => some (c :: rest)

/-- Source `ChunkedSecureStoreAdapter.getItem`: if the chunk-count marker is
present and truthy (non-empty), parse it with `parseInt` and reassemble
that many chunks (joined with the empty separator); otherwise fall back
to the direct key. -/
def getItem (s : Store) (k : Str) : Option Str :=
  match s (chunkCountKey k) with
  | some cstr =>
    if cstr = [] then s k
    else
      match readChunks s k 0 (loopCount (parseIntJS cstr)) with
      | none => none
      | some chunks => some chunks.flatten
  | none => s k

/-- The chunk-deletion loop of `removeItem`: delete `m` chunk keys
starting at index `i`. -/
def delChunks (s : Store) (k : Str) : Nat → Nat → Store
  | _, 0 => s
  | i, m + 1 => delChunks (delK s (chunkKey k i)) k (i + 1) m

/-- Source `ChunkedSecureStoreAdapter.removeItem`: if a truthy marker exists,
delete the counted chunks and the marker; in every case delete the direct
key as well. -/
def removeItem (s : Store) (k : Str) : Store :=
  match s (chunkCountKey k) with
  | some cstr =>
    if cstr = [] then delK s k
    else delK (delK (delChunks s k 0 (loopCount (parseIntJS cstr))) (chunkCountKey k)) k
  | none => delK s k

/-! ### Decimal rendering and parsing lemmas -/

theorem digitChar_toNat {d : Nat} (h : d < 10) : (digitChar d).toNat = 48 + d := by
  interval_cases d <;> rfl

theorem isDigit_digitChar {d : Nat} (h : d < 10) : isDigit (digitChar d) = true := by
  interval_cases d <;> rfl

theorem natRepr_ne_nil (n : Nat) : natRepr n ≠ [] := by
  rw [natRepr_unfold]
  split
  · simp
  · simp

theorem natRepr_digits (n : Nat) : ∀ c ∈ natRepr n, isDigit c = true := by
  induction n using Nat.strong_induction_on with
  | _ n ih =>
    rw [natRepr_unfold]
    split
    · next h =>
      intro c hc
      simp at hc
      subst hc
      exact isDigit_digitChar h
    · next h =>
      intro c hc
      rcases List.mem_append.mp hc with h1 | h1
      · exact ih (n / 10) (Nat.div_lt_self (by omega) (by omega)) c h1
      · simp at h1
        subst h1
        exact isDigit_digitChar (Nat.mod_lt _ (by omega))

theorem digitsVal_natRepr (n : Nat) : digitsVal (natRepr n) = n := by
  induction n using Nat.strong_induction_on with
  | _ n ih =>
    rw [natRepr_unfold]
    split
    · next h =>
      simp [digitsVal, List.foldl, digitChar_toNat h]
    · next h =>
      have hrec := ih (n / 10) (Nat.div_lt_self (by omega) (by omega))
      simp only [digitsVal] at hrec ⊢
      rw [List.foldl_append, hrec]
      simp [List.foldl, digitChar_toNat (Nat.mod_lt n (show 0 < 10 by omega))]
      omega

theorem natRepr_inj {i j : Nat} (h : natRepr i = natRepr j) : i = j := by
  have := congrArg digitsVal h
  rwa [digitsVal_natRepr, digitsVal_natRepr] at this

theorem isDigit_not_ws {c : Char} (h : isDigit c = true) : jsWs c = false := by
  by_contra hw
  have hw' : jsWs c = true := by
    cases hx : jsWs c
    · exact absurd hx hw
    · rfl
  simp only [jsWs, Bool.or_eq_true, decide_eq_true_eq] at hw'
  rcases hw' with ((h1 | h1) | h1) | h1 <;> (subst h1; revert h; decide)

theorem parseIntJS_digits {l : Str} (hne : l ≠ []) (hd : ∀ c ∈ l, isDigit c = true) :
    parseIntJS l = some ((digitsVal l : Nat) : Int) := by
  rcases l with _ | ⟨c, t⟩
  · exact absurd rfl hne
  · have hc : isDigit c = true := hd c (List.mem_cons_self c t)
    have hcw : jsWs c = false := isDigit_not_ws hc
    have hcm : c ≠ '-' := by intro he; subst he; revert hc; decide
    have hcp : c ≠ '+' := by intro he; subst he; revert hc; decide
    have htake : (c :: t).takeWhile isDigit = c :: t :=
      List.takeWhile_eq_self_iff.mpr hd
    rw [parseIntJS]
    rw [List.dropWhile_cons, hcw]
    simp [hcm, hcp, htake]

theorem parseIntJS_natRepr (n : Nat) : parseIntJS (natRepr n) = some (n : Int) := by
  have h := parseIntJS_digits (natRepr_ne_nil n) (natRepr_digits n)
  rwa [digitsVal_natRepr] at h

theorem loopCount_natRepr (n : Nat) : loopCount (parseIntJS (natRepr n)) = n := by
  rw [parseIntJS_natRepr]
  simp [loopCount]

theorem chunksOfAux_irrel : ∀ f₁ f₂ (v : Str), v.length < f₁ → v.length < f₂ →
    chunksOfAux f₁ v = chunksOfAux f₂ v := by
  intro f₁
  induction f₁ with
  | zero => intro f₂ v h _; omega
  | succ f ih =>
    intro f₂ v h1 h2
    cases f₂ with
    | zero => omega
    | succ f₂' =>
      by_cases h0 : v = []
      · simp [chunksOfAux, h0]
      · by_cases hle : v.length ≤ CHUNK_SIZE
        · simp [chunksOfAux, h0, hle]
        · have hpos : 0 < v.length := List.length_pos.mpr h0
          have hd : (v.drop CHUNK_SIZE).length < v.length := by
            simp only [List.length_drop]
            simp only [CHUNK_SIZE] at hle ⊢
            omega
          simp only [chunksOfAux, if_neg h0, if_neg hle]
          rw [ih f₂' (v.drop CHUNK_SIZE) (by omega) (by omega)]

theorem chunksOf_unfold (v : Str) :
    chunksOf v = if v = [] then [] else if v.length ≤ CHUNK_SIZE then [v]
      else v.take CHUNK_SIZE :: chunksOf (v.drop CHUNK_SIZE) := by
  show chunksOfAux (v.length + 1) v = _
  by_cases h0 : v = []
  · simp [chunksOfAux, h0]
  · by_cases hle : v.length ≤ CHUNK_SIZE
    · simp [chunksOfAux, h0, hle]
    · have hd : (v.drop CHUNK_SIZE).length < v.length := by
        simp only [List.length_drop]
        simp only [CHUNK_SIZE] at hle ⊢
        omega
      simp only [chunksOfAux, if_neg h0, if_neg hle]
      rw [chunksOfAux_irrel v.length ((v.drop CHUNK_SIZE).length + 1) (v.drop CHUNK_SIZE)
        (by omega) (by omega)]
      rfl

/-! ### Key distinctness -/

theorem chunkCountKey_ne_key (k : Str) : chunkCountKey k ≠ k := by
  intro h
  have := congrArg List.length h
  simp [chunkCountKey, str] at this

theorem chunkKey_ne_key (k : Str) (i : Nat) : chunkKey k i ≠ k := by
  intro h
  have := congrArg List.length h
  have hpos : 0 < (natRepr i).length := List.length_pos.mpr (natRepr_ne_nil i)
  simp [chunkKey, str] at this

theorem chunkKey_ne_chunkCountKey (k : Str) (i : Nat) : chunkKey k i ≠ chunkCountKey k := by
  intro h
  unfold chunkKey chunkCountKey at h
  rw [List.append_assoc] at h
  have h2 := List.append_cancel_left h
  have h3 := congrArg (List.take 7) h2
  rw [show (7 : Nat) = (str "_chunk_").length from rfl, List.take_left] at h3
  exact absurd h3 (by decide)

theorem chunkKey_inj {k : Str} {i j : Nat} (h : chunkKey k i = chunkKey k j) : i = j := by
  unfold chunkKey at h
  rw [List.append_assoc, List.append_assoc] at h
  have h2 := List.append_cancel_left h
  exact natRepr_inj (List.append_cancel_left h2)

/-! ### Backend map lemmas -/

theorem setK_same (s : Store) (k v : Str) : setK s k v k = some v := by
  simp [setK]

theorem setK_other (s : Store) (k v k' : Str) (h : k' ≠ k) : setK s k v k' = s k' := by
  simp [setK, h]

theorem delK_same (s : Store) (k : Str) : delK s k k = none := by
  simp [delK]

theorem delK_other (s : Store) (k k' : Str) (h : k' ≠ k) : delK s k k' = s k' := by
  simp [delK, h]

/-! ### Write-sequence and chunk lemmas -/

theorem applyOps_append (s : Store) (l₁ l₂ : List Op) :
    applyOps s (l₁ ++ l₂) = applyOps (applyOps s l₁) l₂ := by
  simp [applyOps, List.foldl_append]

theorem chunkOps_length (k : Str) (cs : List Str) (j : Nat) :
    (chunkOps k cs j).length = cs.length := by
  induction cs generalizing j with
  | nil => rfl
  | cons c rest ih => simp [chunkOps, ih]

theorem chunkOps_take (k : Str) (cs : List Str) (j p : Nat) :
    (chunkOps k cs j).take p = chunkOps k (cs.take p) j := by
  induction cs generalizing j p with
  | nil => simp [chunkOps]
  | cons c rest ih =>
    cases p with
    | zero => simp [chunkOps]
    | succ p' => simp [chunkOps, ih]

theorem chunkOps_lookup_other (k : Str) (cs : List Str) (j : Nat) (s : Store) (key' : Str)
    (h : ∀ i, j ≤ i → i < j + cs.length → key' ≠ chunkKey k i) :
    applyOps s (chunkOps k cs j) key' = s key' := by
  induction cs generalizing j s with
  | nil => rfl
  | cons c rest ih =>
    show applyOps (setK s (chunkKey k j) c) (chunkOps k rest (j + 1)) key' = s key'
    rw [ih (j + 1) _ (fun i h1 h2 => h i (by omega) (by simp only [List.length_cons] at *; omega))]
    exact setK_other s _ c key' (h j (by omega) (by simp only [List.length_cons]; omega))

theorem readChunks_congr (s₁ s₂ : Store) (k : Str) (start m : Nat)
    (h : ∀ i, start ≤ i → i < start + m → s₁ (chunkKey k i) = s₂ (chunkKey k i)) :
    readChunks s₁ k start m = readChunks s₂ k start m := by
  induction m generalizing start with
  | zero => rfl
  | succ m' ih =>
    show readChunks s₁ k start (m' + 1) = readChunks s₂ k start (m' + 1)
    rw [readChunks, readChunks, h start (by omega) (by omega),
      ih (start + 1) (fun i h1 h2 => h i (by omega) (by omega))]

theorem readChunks_chunkOps (k : Str) (cs : List Str) (j : Nat) (s : Store) :
    readChunks (applyOps s (chunkOps k cs j)) k j cs.length = some cs := by
  induction cs generalizing j s with
  | nil => rfl
  | cons c rest ih =>
    show readChunks (applyOps (setK s (chunkKey k j) c) (chunkOps k rest (j + 1))) k j
      (rest.length + 1) = some (c :: rest)
    rw [readChunks]
    have hj : applyOps (setK s (chunkKey k j) c) (chunkOps k rest (j + 1)) (chunkKey k j) =
        some c := by
      rw [chunkOps_lookup_other k rest (j + 1) _ (chunkKey k j)
        (fun i h1 _ => fun he => by have := chunkKey_inj he; omega)]
      exact setK_same s (chunkKey k j) c
    rw [hj, ih (j + 1) (setK s (chunkKey k j) c)]

theorem chunksOf_flatten (v : Str) : (chunksOf v).flatten = v := by
  generalize hn : v.length = n
  induction n using Nat.strong_induction_on generalizing v with
  | _ n ih =>
    rw [chunksOf_unfold]
    split
    · next h => simp [h]
    · split
      · simp
      · next h1 h2 =>
        have hd : (v.drop CHUNK_SIZE).length < n := by
          subst hn
          simp only [List.length_drop]
          simp [CHUNK_SIZE] at h2 ⊢
          omega
        simp only [List.flatten_cons]
        rw [ih _ hd _ rfl]
        exact List.take_append_drop _ v

theorem chunksOf_ne_nil {v : Str} (h : v ≠ []) : chunksOf v ≠ [] := by
  rw [chunksOf_unfold]
  split
  · next h0 => exact absurd h0 h
  · split
    · simp
    · simp

theorem chunksOf_le (v : Str) : ∀ c ∈ chunksOf v, c.length ≤ CHUNK_SIZE := by
  generalize hn : v.length = n
  induction n using Nat.strong_induction_on generalizing v with
  | _ n ih =>
    rw [chunksOf_unfold]
    split
    · simp
    · split
      · next h1 =>
        intro c hc
        simp at hc
        subst hc
        exact h1
      · next h1 h2 =>
        intro c hc
        rcases List.mem_cons.mp hc with h3 | h3
        · subst h3
          simp [List.length_take]
        · have hd : (v.drop CHUNK_SIZE).length < n := by
            subst hn
            simp only [List.length_drop]
            simp [CHUNK_SIZE] at h2 ⊢
            omega
          exact ih _ hd _ rfl c h3

theorem setItem_small {s : Store} {k v : Str} (h : v.length ≤ CHUNK_SIZE) :
    setItem s k v = delK (setK s k v) (chunkCountKey k) := by
  simp [setItem, setItemOps, h, applyOps, applyOp]

theorem setItem_big {s : Store} {k v : Str} (h : ¬ v.length ≤ CHUNK_SIZE) :
    setItem s k v =
      delK (setK (applyOps s (chunkOps k (chunksOf v) 0)) (chunkCountKey k)
        (natRepr (chunksOf v).length)) k := by
  simp [setItem, setItemOps, h, applyOps, List.foldl_append, applyOp]

theorem getItem_setItem (s : Store) (k v : Str) : getItem (setItem s k v) k = some v := by
  by_cases h : v.length ≤ CHUNK_SIZE
  · rw [setItem_small h]
    have h1 : delK (setK s k v) (chunkCountKey k) (chunkCountKey k) = none :=
      delK_same _ _
    rw [getItem, h1]
    rw [delK_other _ _ _ (Ne.symm (chunkCountKey_ne_key k)), setK_same]
  · rw [setItem_big h]
    have h1 : delK (setK (applyOps s (chunkOps k (chunksOf v) 0)) (chunkCountKey k)
        (natRepr (chunksOf v).length)) k (chunkCountKey k) =
        some (natRepr (chunksOf v).length) := by
      rw [delK_other _ _ _ (chunkCountKey_ne_key k), setK_same]
    have h2 : ¬ natRepr (chunksOf v).length = [] := natRepr_ne_nil _
    have h3 : readChunks (delK (setK (applyOps s (chunkOps k (chunksOf v) 0)) (chunkCountKey k)
        (natRepr (chunksOf v).length)) k) k 0 (chunksOf v).length =
        readChunks (applyOps s (chunkOps k (chunksOf v) 0)) k 0 (chunksOf v).length := by
      apply readChunks_congr
      intro i _ _
      rw [delK_other _ _ _ (chunkKey_ne_key k i), setK_other _ _ _ _ (chunkKey_ne_chunkCountKey k i)]
    simp only [getItem, h1]
    rw [if_neg h2, loopCount_natRepr, h3, readChunks_chunkOps]
    simp [chunksOf_flatten]

theorem readChunks_missing (s : Store) (k : Str) (i : Nat) :
    ∀ start m, start ≤ i → i < start + m → s (chunkKey k i) = none →
      readChunks s k start m = none := by
  intro start m
  induction m generalizing start with
  | zero => intro _ h2 _; omega
  | succ m' ih =>
    intro h1 h2 h3
    by_cases heq : i = start
    · subst heq
      rw [readChunks, h3]
    · rw [readChunks]
      cases hx : s (chunkKey k start) with
      | none => rfl
      | some c => rw [ih (start + 1) (by omega) (by omega) h3]

theorem getItem_of_no_marker {s : Store} {k : Str} (hm : s (chunkCountKey k) = none) :
    getItem s k = s k := by
  simp only [getItem, hm]

/-- State reached after applying the first `p` operations of a chunked
`setItem` write sequence, from a backend state `s`. -/
def interruptedState (s : Store) (k v : Str) (p : Nat) : Store :=
  applyOps s ((setItemOps k v).take p)

theorem setItemOps_length_big {k v : Str} (h : ¬ v.length ≤ CHUNK_SIZE) :
    (setItemOps k v).length = (chunksOf v).length + 2 := by
  rw [setItemOps, if_neg h]
  simp [chunkOps_length]

theorem getItem_interruptedState (s : Store) (k v : Str) (p : Nat)
    (hlen : ¬ v.length ≤ CHUNK_SIZE) (hm : s (chunkCountKey k) = none) :
    getItem (interruptedState s k v p) k = getItem s k ∨
    getItem (interruptedState s k v p) k = some v := by
  by_cases hp1 : p ≤ (chunksOf v).length
  · -- interrupted during (or before the end of) the chunk-body writes
    left
    have htake : (setItemOps k v).take p = chunkOps k ((chunksOf v).take p) 0 := by
      rw [setItemOps, if_neg hlen,
        List.take_append_of_le_length (by rw [chunkOps_length]; exact hp1),
        chunkOps_take]
    have hmark : applyOps s (chunkOps k ((chunksOf v).take p) 0) (chunkCountKey k) = none := by
      rw [chunkOps_lookup_other k _ 0 s _
        (fun i _ _ => Ne.symm (chunkKey_ne_chunkCountKey k i))]
      exact hm
    have hdir : applyOps s (chunkOps k ((chunksOf v).take p) 0) k = s k := by
      rw [chunkOps_lookup_other k _ 0 s _ (fun i _ _ => Ne.symm (chunkKey_ne_key k i))]
    rw [interruptedState, htake, getItem_of_no_marker hmark, hdir, getItem_of_no_marker hm]
  · by_cases hp2 : p = (chunksOf v).length + 1
    · -- interrupted after the marker write, before deleting the direct key:
      -- the complete new value is already visible
      right
      subst hp2
      have htake : (setItemOps k v).take ((chunksOf v).length + 1) =
          chunkOps k (chunksOf v) 0 ++
            [Op.setO (chunkCountKey k) (natRepr (chunksOf v).length)] := by
        rw [setItemOps, if_neg hlen, List.take_append_eq_append_take,
          List.take_of_length_le (by rw [chunkOps_length]; omega),
          show (chunksOf v).length + 1 - (chunkOps k (chunksOf v) 0).length = 1 by
            rw [chunkOps_length]; omega]
        rfl
      have hstate : interruptedState s k v ((chunksOf v).length + 1) =
          setK (applyOps s (chunkOps k (chunksOf v) 0)) (chunkCountKey k)
            (natRepr (chunksOf v).length) := by
        rw [interruptedState, htake, applyOps_append]
        rfl
      rw [hstate]
      have hmark : setK (applyOps s (chunkOps k (chunksOf v) 0)) (chunkCountKey k)
          (natRepr (chunksOf v).length) (chunkCountKey k) =
          some (natRepr (chunksOf v).length) := setK_same _ _ _
      simp only [getItem, hmark]
      rw [if_neg (natRepr_ne_nil _), loopCount_natRepr]
      have hcongr : readChunks (setK (applyOps s (chunkOps k (chunksOf v) 0)) (chunkCountKey k)
          (natRepr (chunksOf v).length)) k 0 (chunksOf v).length =
          readChunks (applyOps s (chunkOps k (chunksOf v) 0)) k 0 (chunksOf v).length := by
        apply readChunks_congr
        intro i _ _
        exact setK_other _ _ _ _ (chunkKey_ne_chunkCountKey k i)
      rw [hcongr, readChunks_chunkOps]
      simp [chunksOf_flatten]
    · -- the prefix is the whole write sequence: the write completed
      right
      have htake : (setItemOps k v).take p = setItemOps k v := by
        apply List.take_of_length_le
        rw [setItemOps_length_big hlen]
        omega
      rw [interruptedState, htake]
      exact getItem_setItem s k v

/-!
Part 2: the `analyze-material` edge function
(`src/supabase/functions/analyze-material/index.ts`, current revision).
External effects are supplied by an `Env`; the handler is the pure
function `runPipeline`. The earlier revision of the same function (the
unnamed source file) differs by trusting a request-body `userId` and by
extracting a brace-delimited span before `JSON.parse`; the current
revision does neither.
-/

/-- File bytes are opaque. -/
abbrev Bytes := List Nat

/-- JS truthiness of a nullable string: `null`/`undefined` and the empty
string are falsy. -/
def jsFalsyO (o : Option Str) : Bool :=
  match o with
  | none => true
  | some s => s.isEmpty

/-- The JSON request body, `{ storagePath, fileName }` plus the
`userId` field an older client may still send (the current handler
destructures only `storagePath` and `fileName`). -/
structure RequestBody where
  storagePath : Option Str
  fileName : Str
  userId : Option Str
deriving DecidableEq

/-- The parsed analysis result; the handler treats the five projections
as opaque JSON values. -/
structure AnalysisResult where
  summary : Str
  keyConceptsList : Str
  flashcards : Str
  quiz : Str
  hardQuiz : Str
deriving DecidableEq

/-- A row as sent to the `study_results` insert. -/
structure Row where
  user_id : Str
  file_name : Str
  storage_path : Str
  summary : Str
  key_concepts : Str
  flashcards : Str
  quiz : Str
  hard_quiz : Str
deriving DecidableEq

/-- The HTTP response of the handler. Every JSON response is sent with
HTTP status 200 in this revision, so the status code is not modelled. -/
inductive Resp where
  | plain (s : Str)
  | ok (r : AnalysisResult)
  | fail (error : Str)
deriving DecidableEq

/-- Observable outcome of one invocation: the response, the rows handed
to the `study_results` insert (recorded whether or not the insert
reports an error), which providers were invoked, and server-side logs. -/
structure RunResult where
  response : Resp
  inserted : List Row
  geminiCalled : Bool
  llamaCalled : Bool
  groqCalled : Bool
  logs : List Str
deriving DecidableEq

/-- Environment: request data plus the outcome of every external call. -/
structure Env where
  isOptions : Bool
  body : Except Str RequestBody
  authHeader : Option Str
  getUser : Str → Option Str
  geminiKey : Option Str
  groqKey : Option Str
  llamaKey : Option Str
  download : Str → Except Str Bytes
  encB64 : Bytes → Str
  geminiResp : Str → Str → Str → Str → Option Str
  llamaExtract : Bytes → Str → Str → Str → Except Str Str
  groqResp : Str → Str → Option Str
  jsonParse : Str → Except Str AnalysisResult
  dbFail : Bool

/-- Remove the first occurrence of `pat` (model of JS
`s.replace(pat, '')` with a plain-string pattern). -/
def replaceFirst (pat : Str) : Str → Str
  | [] => []
  | c :: rest =>
    if pat.isPrefixOf (c :: rest) then (c :: rest).drop pat.length
    else c :: replaceFirst pat rest

/-- Lower-casing used by `fileName.toLowerCase()`. -/
def lowerStr (s : Str) : Str := s.map Char.toLower

/-- Source: `fileName.toLowerCase().endsWith('.pdf')`. -/
def isPdfName (fileName : Str) : Bool := (str ".pdf").isSuffixOf (lowerStr fileName)

/-- Mime type chosen from the file extension. -/
def mimeOf (isPdf : Bool) : Str :=
  if isPdf then str "application/pdf"
  else str "application/vnd.openxmlformats-officedocument.wordprocessingml.document"

/-- The ordered model list tried by `tryGemini`. -/
def geminiModels : List Str := [str "gemini-2.5-flash", str "gemini-1.5-flash"]

/-- Iteration of `tryGemini`: first model whose call succeeds with a
non-empty text wins; an HTTP failure or empty text advances to the next
model. -/
def firstSome (f : Str → Option Str) : List Str → Option Str
  | [] => none
  | m :: rest =>
    match f m with
    | some t => if t = [] then firstSome f rest else some t
    | none => firstSome f rest

/-- Source function `tryGemini`. -/
def tryGemini (resp : Str → Str → Str → Str → Option Str) (b64 mime gkey : Str) : Option Str :=
  firstSome (fun m => resp m b64 mime gkey) geminiModels

/-- Source: Groq truncation of long extracted text to 14000 chars. -/
def truncText (t : Str) : Str :=
  if 14000 < t.length then t.take 14000 ++ str "\n...[truncated]" else t

/-- Source function `tryGroq`: one call; an HTTP failure or an empty
content yields `null`. -/
def tryGroq (resp : Str → Str → Option Str) (t gkey : Str) : Option Str :=
  match resp (truncText t) gkey with
  | none => none
  | some content => if content = [] then none else some content

/-- The primary (Gemini) attempt: entered only when the Gemini key is
truthy and the document is a PDF. -/
def primaryRawOf (env : Env) (fileName : Str) (bytes : Bytes) : Option Str :=
  match env.geminiKey with
  | none => none
  | some gk =>
    if gk = [] then none
    else if isPdfName fileName then
      tryGemini env.geminiResp (env.encB64 bytes) (mimeOf (isPdfName fileName)) gk
    else none

/-- Text produced by the LlamaParse extraction step of the fallback
path: empty when the key is absent/falsy or the extraction call throws
(the `catch` keeps `extracted = ''`). -/
def extractedText (env : Env) (fileName mime : Str) (bytes : Bytes) : Str :=
  match env.llamaKey with
  | none => []
  | some lk =>
    if lk = [] then []
    else
      match env.llamaExtract bytes fileName mime lk with
      | .ok t => t
      | .error _ => []

/-- Whether the Gemini call happens at all. -/
def gemCalledOf (env : Env) (fileName : Str) : Bool :=
  !jsFalsyO env.geminiKey && isPdfName fileName

/-- The cleaning applied before `JSON.parse`:
`rawText.replace(/``` + `json|``` + `/g, '').trim()`. -/
def stripFencesAux : Nat → Str → Str
  | 0, s => s
  | _ + 1, [] => []
  | fuel + 1, c :: rest =>
    if (str "```json").isPrefixOf (c :: rest) then stripFencesAux fuel ((c :: rest).drop 7)
    else if (str "```").isPrefixOf (c :: rest) then stripFencesAux fuel ((c :: rest).drop 3)
    else c :: stripFencesAux fuel rest

def stripFences (s : Str) : Str := stripFencesAux (s.length + 1) s

/-- JS `String.prototype.trim` (on the whitespace characters relevant
here). -/
def jsTrim (s : Str) : Str :=
  (((s.dropWhile jsWs).reverse).dropWhile jsWs).reverse

/-- The exact string handed to `JSON.parse` by the current revision. -/
def cleanedOf (raw : Str) : Str := jsTrim (stripFences raw)

/-- Row constructed for the `study_results` insert. -/
def mkRow (verifiedUserId fileName storagePath : Str) (r : AnalysisResult) : Row :=
  ⟨verifiedUserId, fileName, storagePath, r.summary, r.keyConceptsList,
    r.flashcards, r.quiz, r.hardQuiz⟩

/-- Steps 5-8 of the handler: the `!rawText` guard, response parsing,
the `study_results` insert (its error only logged), and the success
response. -/
def finishRun (env : Env) (u fileName sp : Str) (rawText : Option Str)
    (g l q : Bool) : RunResult :=
  match rawText with
  | none => ⟨Resp.fail (str "All AI providers failed. Check your API keys in Supabase Secrets."),
      [], g, l, q, []⟩
  | some raw =>
    if raw = [] then
      ⟨Resp.fail (str "All AI providers failed. Check your API keys in Supabase Secrets."),
        [], g, l, q, []⟩
    else
      match env.jsonParse (cleanedOf raw) with
      | .error m => ⟨Resp.fail (str "Failed to parse AI response: " ++ m), [], g, l, q, []⟩
      | .ok r =>
        ⟨Resp.ok r, [mkRow u fileName sp r], g, l, q,
          if env.dbFail then [str "DB error"] else []⟩

/-- Step 4 of the handler: the LlamaParse + Groq fallback path. -/
def fallbackStage (env : Env) (u fileName sp : Str) (bytes : Bytes) : RunResult :=
  if (extractedText env fileName (mimeOf (isPdfName fileName)) bytes).length < 50 then
    ⟨Resp.fail (str "Could not extract readable text from this file. Please try a different PDF or DOCX file."),
      [], gemCalledOf env fileName, !jsFalsyO env.llamaKey, false, []⟩
  else
    finishRun env u fileName sp
      (tryGroq env.groqResp (extractedText env fileName (mimeOf (isPdfName fileName)) bytes)
        (env.groqKey.getD []))
      (gemCalledOf env fileName) (!jsFalsyO env.llamaKey) true

/-- Steps 2-8 after a successful download. The JS guard
`!extracted || extracted.length < 50` is equivalent to
`extracted.length < 50` since the empty string has length 0. -/
def afterDownload (env : Env) (u fileName sp : Str) (bytes : Bytes) : RunResult :=
  if jsFalsyO (primaryRawOf env fileName bytes) && !jsFalsyO env.groqKey then
    fallbackStage env u fileName sp bytes
  else
    finishRun env u fileName sp (primaryRawOf env fileName bytes)
      (gemCalledOf env fileName) false false

/-- The whole `serve` handler of the current revision. Thrown errors are
the `catch`-produced failure envelopes (always HTTP 200). -/
def runPipeline (env : Env) : RunResult :=
  if env.isOptions then ⟨Resp.plain (str "ok"), [], false, false, false, []⟩
  else
    match env.body with
    | .error m => ⟨Resp.fail m, [], false, false, false, []⟩
    | .ok body =>
      if jsFalsyO body.storagePath then
        ⟨Resp.fail (str "Missing storagePath"), [], false, false, false, []⟩
      else
        match env.authHeader with
        | none => ⟨Resp.fail (str "Missing Authorization header. You must be logged in."),
            [], false, false, false, []⟩
        | some ah =>
          match env.getUser (replaceFirst (str "Bearer ") ah) with
          | none => ⟨Resp.fail (str "Unauthorized: Invalid or expired session token."),
              [], false, false, false, []⟩
          | some u =>
            match env.download (body.storagePath.getD []) with
            | .error m => ⟨Resp.fail (str "Download failed: " ++ m), [], false, false, false, []⟩
            | .ok bytes => afterDownload env u body.fileName (body.storagePath.getD []) bytes

/-- Environment with the request body's `userId` field replaced. -/
def setUserIdField (env : Env) (x : Option Str) : Env :=
  { env with
    body :=
      match env.body with
      | .ok b => .ok ⟨b.storagePath, b.fileName, x⟩
      | .error m => .error m }

/-- Environment with the database-insert outcome replaced. -/
def setDbFail (env : Env) (b : Bool) : Env := { env with dbFail := b }

/-- The brace-delimited span described by the specification: from the
first opening brace to the last closing brace of the cleaned text.
Modelled from the spec's words (step 6, "locate the outermost span");
the current handler source has no such extraction. -/
def specBraceSpan (s : Str) : Option Str :=
  if ((s.dropWhile (fun c => c ≠ '{')).reverse.dropWhile (fun c => c ≠ '}')).reverse = [] then
    none
  else
    some ((s.dropWhile (fun c => c ≠ '{')).reverse.dropWhile (fun c => c ≠ '}')).reverse

/-! ### Concrete instances used by witnesses and counterexamples -/

/-- A 1801-character value (one character over `CHUNK_SIZE`). -/
def bigA : Str := List.replicate 1801 'a'

/-- A second 1801-character value, distinct from `bigA` at every index. -/
def bigB : Str := List.replicate 1801 'b'

/-- Key used by the concrete store scenarios. -/
def kW : Str := str "sess"

theorem replicate_1801_ne_nil (c : Char) : List.replicate 1801 c ≠ [] := by
  intro h
  have h2 := congrArg List.length h
  rw [List.length_replicate, List.length_nil] at h2
  omega

theorem bigA_not_small : ¬ bigA.length ≤ CHUNK_SIZE := by
  rw [bigA, CHUNK_SIZE, List.length_replicate]
  omega

theorem bigB_not_small : ¬ bigB.length ≤ CHUNK_SIZE := by
  rw [bigB, CHUNK_SIZE, List.length_replicate]
  omega

theorem chunksOf_replicate_1801 (c : Char) :
    chunksOf (List.replicate 1801 c) = [List.replicate 1800 c, [c]] := by
  rw [chunksOf_unfold]
  rw [if_neg (replicate_1801_ne_nil c),
    if_neg (by rw [List.length_replicate, CHUNK_SIZE]; omega)]
  have ht : (List.replicate 1801 c).take CHUNK_SIZE = List.replicate 1800 c := by
    rw [CHUNK_SIZE, List.take_replicate, show min 1800 1801 = 1800 by omega]
  have hd : (List.replicate 1801 c).drop CHUNK_SIZE = [c] := by
    rw [CHUNK_SIZE, List.drop_replicate, show (1801 : Nat) - 1800 = 1 by omega,
      List.replicate_one]
  rw [ht, hd, chunksOf_unfold]
  rw [if_neg (List.cons_ne_nil c []),
    if_pos (by rw [List.length_cons, List.length_nil, CHUNK_SIZE]; omega)]

/-! ### Claims about the chunked secure store -/

/-- Claim C2: for every key `k` and non-empty value `v`, and from any
backend state (including remnants of earlier direct or chunked writes),
`setItem k v` followed by `getItem k` returns exactly `v`; in particular
a direct write superseding a chunked one is returned, never stale chunk
data. -/
theorem studia_C2_set_then_get_returns_value (s : Store) (k v : Str) (hv : v ≠ []) :
    getItem (setItem s k v) k = some v :=
  getItem_setItem s k v

/-- Witness for C2 at a concrete key, value and the empty backend. -/
theorem studia_C2_witness :
    str "hi" ≠ ([] : Str) ∧
      getItem (setItem emptyStore (str "k") (str "hi")) (str "k") = some (str "hi") :=
  ⟨by decide, studia_C2_set_then_get_returns_value emptyStore (str "k") (str "hi") (by decide)⟩

/-- Claim C9: `removeItem k` followed by `getItem k` returns `null` from
any backend state, whether the prior representation was direct or
chunked. -/
theorem studia_C9_remove_then_get_null (s : Store) (k : Str) :
    getItem (removeItem s k) k = none := by
  rcases hm : s (chunkCountKey k) with _ | cstr
  · have hr : removeItem s k = delK s k := by
      simp only [removeItem, hm]
    have h1 : delK s k (chunkCountKey k) = none := by
      rw [delK_other _ _ _ (chunkCountKey_ne_key k), hm]
    rw [hr]
    simp only [getItem, h1]
    exact delK_same s k
  · by_cases hc : cstr = []
    · have hr : removeItem s k = delK s k := by
        simp only [removeItem, hm, if_pos hc]
      have h1 : delK s k (chunkCountKey k) = some cstr := by
        rw [delK_other _ _ _ (chunkCountKey_ne_key k), hm]
      rw [hr]
      simp only [getItem, h1, if_pos hc]
      exact delK_same s k
    · have hr : removeItem s k =
          delK (delK (delChunks s k 0 (loopCount (parseIntJS cstr))) (chunkCountKey k)) k := by
        simp only [removeItem, hm, if_neg hc]
      have h1 : delK (delK (delChunks s k 0 (loopCount (parseIntJS cstr))) (chunkCountKey k)) k
          (chunkCountKey k) = none := by
        rw [delK_other _ _ _ (chunkCountKey_ne_key k), delK_same]
      rw [hr]
      simp only [getItem, h1]
      exact delK_same _ k

/-- Claim C4: if the chunk-count marker of `k` holds `n` and any chunk
entry `k_chunk_i` with `i < n` is absent, `getItem k` returns `null`,
never a partial concatenation of the remaining chunks. -/
theorem studia_C4_missing_chunk_yields_null (s : Store) (k cstr : Str) (n i : Nat)
    (hm : s (chunkCountKey k) = some cstr) (hne : cstr ≠ [])
    (hn : loopCount (parseIntJS cstr) = n) (hi : i < n)
    (hmiss : s (chunkKey k i) = none) :
    getItem s k = none := by
  simp only [getItem, hm, if_neg hne, hn]
  rw [readChunks_missing s k i 0 n (by omega) (by omega) hmiss]

/-- Witness store for C4: marker `"2"`, chunk 0 present, chunk 1 deleted
out-of-band. -/
def s4 : Store := fun k' =>
  if k' = chunkCountKey (str "k") then some (natRepr 2)
  else if k' = chunkKey (str "k") 0 then some (str "x") else none

/-- Witness for C4: with chunk 1 missing the read yields `null`. -/
theorem studia_C4_witness :
    s4 (chunkCountKey (str "k")) = some (natRepr 2) ∧
      s4 (chunkKey (str "k") 1) = none ∧
      getItem s4 (str "k") = none :=
  ⟨rfl, by decide,
    studia_C4_missing_chunk_yields_null s4 (str "k") (natRepr 2) 2 1 rfl (by decide)
      (by decide) (by decide) (by decide)⟩

/-- Store refuting C10's empty-marker example: the marker is present but
empty, and a direct value sits at `k`. -/
def s10 : Store := fun k' =>
  if k' = chunkCountKey (str "k") then some []
  else if k' = str "k" then some (str "x") else none

/-- Counterexample to C10 as stated: with an empty marker (present, and
`parseInt` of it is `NaN`), `getItem` returns the direct value at `k`,
not the empty string — the JS truthiness check `if (chunkCountStr)`
routes an empty marker to the direct path. -/
theorem studia_C10_counterexample :
    s10 (chunkCountKey (str "k")) = some [] ∧
      loopCount (parseIntJS []) = 0 ∧
      getItem s10 (str "k") = some (str "x") ∧
      some (str "x") ≠ some ([] : Str) :=
  ⟨rfl, rfl, by decide, by decide⟩

/-- Claim C10 amended: if the chunk-count marker of `k` is present and
NON-empty but does not parse to a positive integer (`parseInt` yields
`0`, a negative number, or `NaN`), `getItem k` returns the empty string
— the chunk loop runs zero iterations and the join of no chunks is
returned. An empty marker instead fails the truthiness check and the
direct value at `k` (or `null`) is returned. -/
theorem studia_C10_amended (s : Store) (k cstr : Str)
    (hm : s (chunkCountKey k) = some cstr) (hne : cstr ≠ [])
    (h0 : loopCount (parseIntJS cstr) = 0) :
    getItem s k = some [] := by
  simp only [getItem, hm, if_neg hne, h0]
  rfl

/-- Witness store for amended C10: a non-numeric marker `"abc"`. -/
def s10w : Store := fun k' =>
  if k' = chunkCountKey (str "k") then some (str "abc")
  else if k' = str "k" then some (str "x") else none

/-- Witness for amended C10: a non-numeric marker yields the empty
string, even though a direct value exists at `k`. -/
theorem studia_C10_amended_witness :
    s10w (chunkCountKey (str "k")) = some (str "abc") ∧
      str "abc" ≠ ([] : Str) ∧
      getItem s10w (str "k") = some [] :=
  ⟨rfl, by decide, studia_C10_amended s10w (str "k") (str "abc") rfl (by decide) (by decide)⟩

/-- Claim C8: for `v` longer than `CHUNK_SIZE`, `setItem k v` stores the
contiguous chunk sequence `chunksOf v` (readable back in order), whose
concatenation is `v` and whose members are each at most `CHUNK_SIZE`
long, writes the chunk count to the marker key, and deletes any
pre-existing direct entry at `k`. -/
theorem studia_C8_chunked_write_shape (s : Store) (k v : Str) (h : CHUNK_SIZE < v.length) :
    readChunks (setItem s k v) k 0 (chunksOf v).length = some (chunksOf v) ∧
      (chunksOf v).flatten = v ∧
      (∀ c ∈ chunksOf v, c.length ≤ CHUNK_SIZE) ∧
      setItem s k v (chunkCountKey k) = some (natRepr (chunksOf v).length) ∧
      setItem s k v k = none := by
  have h' : ¬ v.length ≤ CHUNK_SIZE := by omega
  refine ⟨?_, chunksOf_flatten v, chunksOf_le v, ?_, ?_⟩
  · rw [setItem_big h']
    have h3 : readChunks (delK (setK (applyOps s (chunkOps k (chunksOf v) 0)) (chunkCountKey k)
        (natRepr (chunksOf v).length)) k) k 0 (chunksOf v).length =
        readChunks (applyOps s (chunkOps k (chunksOf v) 0)) k 0 (chunksOf v).length := by
      apply readChunks_congr
      intro i _ _
      rw [delK_other _ _ _ (chunkKey_ne_key k i),
        setK_other _ _ _ _ (chunkKey_ne_chunkCountKey k i)]
    rw [h3, readChunks_chunkOps]
  · rw [setItem_big h', delK_other _ _ _ (chunkCountKey_ne_key k), setK_same]
  · rw [setItem_big h', delK_same]

/-- Witness for C8 at the 1801-character value `bigA` over the empty
backend: the two chunks are `'a'^1800` and `['a']`, the marker holds
`"2"`, and no direct entry remains. -/
theorem studia_C8_witness :
    CHUNK_SIZE < bigA.length ∧
      readChunks (setItem emptyStore kW bigA) kW 0 (chunksOf bigA).length =
        some (chunksOf bigA) ∧
      (chunksOf bigA).flatten = bigA ∧
      setItem emptyStore kW bigA (chunkCountKey kW) = some (natRepr (chunksOf bigA).length) ∧
      setItem emptyStore kW bigA kW = none := by
  have hlen : CHUNK_SIZE < bigA.length := by
    rw [bigA, List.length_replicate, CHUNK_SIZE]; omega
  have h := studia_C8_chunked_write_shape emptyStore kW bigA hlen
  exact ⟨hlen, h.1, h.2.1, h.2.2.2.1, h.2.2.2.2⟩

/-- Backend state holding the chunked value `bigA` at `kW` (the
"previously stored value" of the C3 scenario). -/
def statePrev : Store := setItem emptyStore kW bigA

/-- The state after the chunked write of `bigB` over `statePrev` is
interrupted after its first backend operation (writing chunk 0). -/
def stateInterrupted : Store := applyOps statePrev ((setItemOps kW bigB).take 1)

theorem statePrev_eq : statePrev =
    delK (setK (applyOps emptyStore
        (chunkOps kW [List.replicate 1800 'a', ['a']] 0)) (chunkCountKey kW)
      (natRepr 2)) kW := by
  show setItem emptyStore kW bigA = _
  rw [setItem_big bigA_not_small,
    show chunksOf bigA = [List.replicate 1800 'a', ['a']] from by
      rw [bigA]; exact chunksOf_replicate_1801 'a']
  rfl

theorem stateInterrupted_eq : stateInterrupted =
    setK statePrev (chunkKey kW 0) (List.replicate 1800 'b') := by
  show applyOps statePrev ((setItemOps kW bigB).take 1) = _
  rw [setItemOps, if_neg bigB_not_small,
    show chunksOf bigB = [List.replicate 1800 'b', ['b']] from by
      rw [bigB]; exact chunksOf_replicate_1801 'b']
  rfl

theorem stateInterrupted_marker :
    stateInterrupted (chunkCountKey kW) = some (natRepr 2) := by
  rw [stateInterrupted_eq,
    setK_other _ _ _ _ (Ne.symm (chunkKey_ne_chunkCountKey kW 0)),
    statePrev_eq, delK_other _ _ _ (chunkCountKey_ne_key kW), setK_same]

theorem stateInterrupted_chunk0 :
    stateInterrupted (chunkKey kW 0) = some (List.replicate 1800 'b') := by
  rw [stateInterrupted_eq, setK_same]

theorem stateInterrupted_chunk1 :
    stateInterrupted (chunkKey kW 1) = some ['a'] := by
  rw [stateInterrupted_eq,
    setK_other _ _ _ _ (fun he => by have := chunkKey_inj he; omega),
    statePrev_eq, delK_other _ _ _ (chunkKey_ne_key kW 1),
    setK_other _ _ _ _ (chunkKey_ne_chunkCountKey kW 1)]
  show setK (setK emptyStore (chunkKey kW 0) (List.replicate 1800 'a'))
    (chunkKey kW 1) ['a'] (chunkKey kW 1) = some ['a']
  exact setK_same _ _ _

theorem readChunks_two (s : Store) (k x y : Str)
    (h0 : s (chunkKey k 0) = some x) (h1 : s (chunkKey k 1) = some y) :
    readChunks s k 0 2 = some [x, y] := by
  simp [readChunks, h0, h1]

theorem stateInterrupted_read :
    readChunks stateInterrupted kW 0 2 = some [List.replicate 1800 'b', ['a']] :=
  readChunks_two stateInterrupted kW (List.replicate 1800 'b') ['a']
    stateInterrupted_chunk0 stateInterrupted_chunk1

theorem stateInterrupted_get :
    getItem stateInterrupted kW = some (List.replicate 1800 'b' ++ ['a']) := by
  simp only [getItem, stateInterrupted_marker, if_neg (natRepr_ne_nil 2), loopCount_natRepr,
    stateInterrupted_read]
  simp only [List.flatten_cons, List.flatten_nil, List.append_nil]

theorem statePrev_get : getItem statePrev kW = some bigA :=
  getItem_setItem emptyStore kW bigA

/-- Counterexample to C3 as stated: from a backend state whose previous
value at `kW` was chunked (`bigA`), interrupting the chunked write of
`bigB` after its first operation leaves a read that is neither the
previously stored value, nor `null`, nor the new value: the stale
chunk-count marker splices one new chunk with one old chunk. -/
theorem studia_C3_counterexample :
    getItem stateInterrupted kW = some (List.replicate 1800 'b' ++ ['a']) ∧
      getItem stateInterrupted kW ≠ getItem statePrev kW ∧
      getItem stateInterrupted kW ≠ none ∧
      getItem stateInterrupted kW ≠ some bigB := by
  refine ⟨stateInterrupted_get, ?_, ?_, ?_⟩
  · rw [stateInterrupted_get, statePrev_get]
    intro h
    have h2 : List.replicate 1800 'b' ++ ['a'] = bigA := Option.some.inj h
    have h3 : ('b' : Char) = 'a' := by
      have h4 := congrArg (fun l => l.headD 'z') h2
      rw [bigA] at h4
      exact h4
    exact absurd h3 (by decide)
  · rw [stateInterrupted_get]
    intro h
    exact Option.noConfusion h
  · rw [stateInterrupted_get]
    intro h
    have h2 : List.replicate 1800 'b' ++ ['a'] = bigB := Option.some.inj h
    have h3 := congrArg List.getLast? h2
    rw [List.getLast?_concat, bigB, show (1801 : Nat) = 1800 + 1 from rfl,
      List.replicate_succ', List.getLast?_concat] at h3
    exact absurd (Option.some.inj h3) (by decide)

/-- Claim C3 amended: when the backend holds NO chunk-count marker for
`k` before the chunked write (previous value direct or absent), any
prefix of the write sequence leaves `getItem k` returning either its
previous result (the prior value or `null`) or the complete new value
`v` — never a spliced string. (As stated the claim fails when the
previous value was itself chunked: the stale marker can expose a splice
of new and old chunks, and the state between the marker write and the
direct-key delete already returns the full new value.) -/
theorem studia_C3_amended (s : Store) (k v : Str) (p : Nat)
    (hlen : ¬ v.length ≤ CHUNK_SIZE) (hm : s (chunkCountKey k) = none) :
    getItem (interruptedState s k v p) k = getItem s k ∨
      getItem (interruptedState s k v p) k = some v :=
  getItem_interruptedState s k v p hlen hm

/-- Witness for amended C3: the chunked write of `bigB` over the empty
backend, interrupted after one operation. -/
theorem studia_C3_amended_witness :
    (¬ bigB.length ≤ CHUNK_SIZE) ∧ emptyStore (chunkCountKey kW) = none ∧
      (getItem (interruptedState emptyStore kW bigB 1) kW = getItem emptyStore kW ∨
        getItem (interruptedState emptyStore kW bigB 1) kW = some bigB) :=
  ⟨bigB_not_small, rfl, studia_C3_amended emptyStore kW bigB 1 bigB_not_small rfl⟩

/-! ### Claims about the analysis pipeline -/

theorem finishRun_user (env : Env) (u f sp : Str) (rt : Option Str) (g l q : Bool) :
    (finishRun env u f sp rt g l q).inserted.map Row.user_id =
      List.replicate (finishRun env u f sp rt g l q).inserted.length u := by
  unfold finishRun
  rcases rt with _ | raw
  · rfl
  · by_cases hr : raw = []
    · simp [hr]
    · simp only [if_neg hr]
      cases hj : env.jsonParse (cleanedOf raw) with
      | error m => simp [hj]
      | ok r => simp [hj, mkRow]

theorem fallbackStage_user (env : Env) (u f sp : Str) (bytes : Bytes) :
    (fallbackStage env u f sp bytes).inserted.map Row.user_id =
      List.replicate (fallbackStage env u f sp bytes).inserted.length u := by
  unfold fallbackStage
  split
  · rfl
  · exact finishRun_user env u f sp _ _ _ _

theorem afterDownload_user (env : Env) (u f sp : Str) (bytes : Bytes) :
    (afterDownload env u f sp bytes).inserted.map Row.user_id =
      List.replicate (afterDownload env u f sp bytes).inserted.length u := by
  unfold afterDownload
  split
  · exact fallbackStage_user env u f sp bytes
  · exact finishRun_user env u f sp _ _ _ _

theorem runPipeline_user (env : Env) (ah u : Str)
    (hah : env.authHeader = some ah)
    (hu : env.getUser (replaceFirst (str "Bearer ") ah) = some u) :
    (runPipeline env).inserted.map Row.user_id =
      List.replicate (runPipeline env).inserted.length u := by
  unfold runPipeline
  split
  · rfl
  · cases hb : env.body with
    | error m => simp [hb]
    | ok body =>
      simp only [hb]
      split
      · rfl
      · simp only [hah, hu]
        cases hd : env.download (body.storagePath.getD []) with
        | error m => simp [hd]
        | ok bytes =>
          simp only [hd]
          exact afterDownload_user env u body.fileName _ bytes

theorem runPipeline_userId_irrelevant (env : Env) (x : Option Str) :
    runPipeline (setUserIdField env x) = runPipeline env := by
  rcases env with ⟨io, bo, ah, gu, gk, qk, lk, dl, eb, gr, le, qr, jp, db⟩
  rcases bo with m | b
  · rfl
  · rcases b with ⟨sp, fn, uid⟩
    rfl

/-- Claim C1: for every request whose bearer token verifies to user `u`,
every row handed to the `study_results` insert carries `user_id = u`,
and the entire run result is unchanged under any value of the request
body's `userId` field — the client-asserted identifier never influences
the persisted identity. -/
theorem studia_C1_verified_identity (env : Env) (ah u : Str) (x : Option Str)
    (hah : env.authHeader = some ah)
    (hu : env.getUser (replaceFirst (str "Bearer ") ah) = some u) :
    (runPipeline env).inserted.map Row.user_id =
        List.replicate (runPipeline env).inserted.length u ∧
      runPipeline (setUserIdField env x) = runPipeline env :=
  ⟨runPipeline_user env ah u hah hu, runPipeline_userId_irrelevant env x⟩

/-- Concrete environment: PDF request, valid bearer token, Gemini
succeeds with raw output `"{}"`, parsing succeeds, insert succeeds. -/
def rW : AnalysisResult := ⟨str "s", str "kc", str "fc", str "qz", str "hq"⟩

def envBase : Env :=
  { isOptions := false
    body := .ok ⟨some (str "u1/doc.pdf"), str "doc.pdf", none⟩
    authHeader := some (str "Bearer tok")
    getUser := fun t => if t = str "tok" then some (str "user-1") else none
    geminiKey := some (str "g")
    groqKey := some (str "q")
    llamaKey := none
    download := fun _ => .ok []
    encB64 := fun _ => []
    geminiResp := fun _ _ _ _ => some (str "{}")
    llamaExtract := fun _ _ _ _ => .error (str "boom")
    groqResp := fun _ _ => none
    jsonParse := fun _ => .ok rW
    dbFail := false }

/-- Witness for C1: in `envBase` the bearer token verifies to
`"user-1"`; the inserted row carries that id, and planting a spoofed
`userId` in the body leaves the entire run unchanged. -/
theorem studia_C1_witness :
    envBase.authHeader = some (str "Bearer tok") ∧
      (runPipeline envBase).inserted.map Row.user_id =
        List.replicate (runPipeline envBase).inserted.length (str "user-1") ∧
      runPipeline (setUserIdField envBase (some (str "spoof"))) = runPipeline envBase := by
  have h := studia_C1_verified_identity envBase (str "Bearer tok") (str "user-1")
    (some (str "spoof")) rfl (by decide)
  exact ⟨rfl, h.1, h.2⟩

theorem jsFalsyO_some_of_ne {sp : Str} (h : sp ≠ []) : jsFalsyO (some sp) = false := by
  rcases sp with _ | ⟨c, t⟩
  · exact absurd rfl h
  · rfl

/-- Claim C5: in the fallback path (primary produced nothing usable and
a Groq key is configured), extracted text shorter than 50 characters
(including the empty string) fails the request with the
extraction-failure error, and the Groq generation call is never made. -/
theorem studia_C5_extraction_guard (env : Env) (body : RequestBody) (sp ah u : Str)
    (bytes : Bytes)
    (hio : env.isOptions = false)
    (hb : env.body = .ok body)
    (hsp : body.storagePath = some sp) (hspne : sp ≠ [])
    (hah : env.authHeader = some ah)
    (hu : env.getUser (replaceFirst (str "Bearer ") ah) = some u)
    (hdl : env.download sp = .ok bytes)
    (hprim : jsFalsyO (primaryRawOf env body.fileName bytes) = true)
    (hgroq : jsFalsyO env.groqKey = false)
    (hshort : (extractedText env body.fileName (mimeOf (isPdfName body.fileName)) bytes).length < 50) :
    (runPipeline env).response =
        Resp.fail (str "Could not extract readable text from this file. Please try a different PDF or DOCX file.") ∧
      (runPipeline env).groqCalled = false := by
  have hfal : jsFalsyO body.storagePath = false := by
    rw [hsp]
    exact jsFalsyO_some_of_ne hspne
  have hgd : body.storagePath.getD [] = sp := by rw [hsp]; rfl
  have hdl' : env.download (body.storagePath.getD []) = .ok bytes := by rw [hgd]; exact hdl
  unfold runPipeline
  rw [hio]
  simp only [Bool.false_eq_true, if_false, hb, hfal, hah, hu, hdl']
  unfold afterDownload
  rw [hprim, hgroq]
  simp only [Bool.not_false, Bool.true_and, if_true]
  unfold fallbackStage
  rw [if_pos hshort]
  exact ⟨rfl, rfl⟩

/-- Environment for the C5 witness: no Gemini key (primary absent), no
LlamaParse key (extraction yields the empty string), Groq key present. -/
def env5 : Env :=
  { envBase with geminiKey := none }

/-- Witness for C5: with no primary provider and empty extracted text,
the request fails with the extraction error and Groq is never called. -/
theorem studia_C5_witness :
    jsFalsyO (primaryRawOf env5 (str "doc.pdf") []) = true ∧
      jsFalsyO env5.groqKey = false ∧
      (extractedText env5 (str "doc.pdf") (mimeOf (isPdfName (str "doc.pdf"))) []).length < 50 ∧
      (runPipeline env5).response =
        Resp.fail (str "Could not extract readable text from this file. Please try a different PDF or DOCX file.") ∧
      (runPipeline env5).groqCalled = false := by
  have h := studia_C5_extraction_guard env5 ⟨some (str "u1/doc.pdf"), str "doc.pdf", none⟩
    (str "u1/doc.pdf") (str "Bearer tok") (str "user-1") [] rfl rfl rfl (by decide) rfl
    (by decide) rfl (by decide) (by decide) (by decide)
  exact ⟨by decide, by decide, by decide, h.1, h.2⟩

theorem finishRun_dbFail (env : Env) (b : Bool) (u f sp : Str) (rt : Option Str)
    (g l q : Bool) :
    (finishRun (setDbFail env b) u f sp rt g l q).response =
        (finishRun env u f sp rt g l q).response ∧
      (finishRun (setDbFail env b) u f sp rt g l q).inserted =
        (finishRun env u f sp rt g l q).inserted := by
  unfold finishRun
  have hjp : (setDbFail env b).jsonParse = env.jsonParse := rfl
  rw [hjp]
  rcases rt with _ | raw
  · exact ⟨rfl, rfl⟩
  · by_cases hr : raw = []
    · simp [hr]
    · simp only [if_neg hr]
      cases hj : env.jsonParse (cleanedOf raw) with
      | error m => simp [hj]
      | ok r => simp [hj]

theorem fallbackStage_dbFail (env : Env) (b : Bool) (u f sp : Str) (bytes : Bytes) :
    (fallbackStage (setDbFail env b) u f sp bytes).response =
        (fallbackStage env u f sp bytes).response ∧
      (fallbackStage (setDbFail env b) u f sp bytes).inserted =
        (fallbackStage env u f sp bytes).inserted := by
  unfold fallbackStage
  have h1 : extractedText (setDbFail env b) f (mimeOf (isPdfName f)) bytes =
      extractedText env f (mimeOf (isPdfName f)) bytes := rfl
  have h2 : gemCalledOf (setDbFail env b) f = gemCalledOf env f := rfl
  have h3 : (setDbFail env b).llamaKey = env.llamaKey := rfl
  have h4 : (setDbFail env b).groqResp = env.groqResp := rfl
  have h5 : (setDbFail env b).groqKey = env.groqKey := rfl
  rw [h1, h2, h3, h4, h5]
  split
  · exact ⟨rfl, rfl⟩
  · exact finishRun_dbFail env b u f sp _ _ _ _

theorem afterDownload_dbFail (env : Env) (b : Bool) (u f sp : Str) (bytes : Bytes) :
    (afterDownload (setDbFail env b) u f sp bytes).response =
        (afterDownload env u f sp bytes).response ∧
      (afterDownload (setDbFail env b) u f sp bytes).inserted =
        (afterDownload env u f sp bytes).inserted := by
  unfold afterDownload
  have h1 : primaryRawOf (setDbFail env b) f bytes = primaryRawOf env f bytes := rfl
  have h2 : (setDbFail env b).groqKey = env.groqKey := rfl
  have h3 : gemCalledOf (setDbFail env b) f = gemCalledOf env f := rfl
  rw [h1, h2, h3]
  split
  · exact fallbackStage_dbFail env b u f sp bytes
  · exact finishRun_dbFail env b u f sp _ _ _ _

theorem runPipeline_dbFail (env : Env) (b : Bool) :
    (runPipeline (setDbFail env b)).response = (runPipeline env).response ∧
      (runPipeline (setDbFail env b)).inserted = (runPipeline env).inserted := by
  unfold runPipeline
  have h0 : (setDbFail env b).isOptions = env.isOptions := rfl
  have h1 : (setDbFail env b).body = env.body := rfl
  have h2 : (setDbFail env b).authHeader = env.authHeader := rfl
  have h3 : (setDbFail env b).getUser = env.getUser := rfl
  have h4 : (setDbFail env b).download = env.download := rfl
  rw [h0, h1, h2, h3, h4]
  split
  · exact ⟨rfl, rfl⟩
  · cases hb : env.body with
    | error m => simp [hb]
    | ok body =>
      simp only [hb]
      split
      · exact ⟨rfl, rfl⟩
      · cases hah : env.authHeader with
        | none => simp [hah]
        | some ah =>
          simp only [hah]
          cases hu : env.getUser (replaceFirst (str "Bearer ") ah) with
          | none => simp [hu]
          | some u =>
            simp only [hu]
            cases hd : env.download (body.storagePath.getD []) with
            | error m => simp [hd]
            | ok bytes =>
              simp only [hd]
              exact afterDownload_dbFail env b u body.fileName _ bytes

/-- Claim C6: once a request produces a successfully parsed result, the
outcome of the `study_results` insert does not change the response: for
any insert outcome the handler still returns the same success response
carrying the full parsed result, and the same row is handed to the
sink (the insert error is only logged). -/
theorem studia_C6_insert_failure_not_fatal (env : Env) (b : Bool) (r : AnalysisResult)
    (h : (runPipeline env).response = Resp.ok r) :
    (runPipeline (setDbFail env b)).response = Resp.ok r ∧
      (runPipeline (setDbFail env b)).inserted = (runPipeline env).inserted := by
  have h2 := runPipeline_dbFail env b
  exact ⟨h2.1.trans h, h2.2⟩

/-- Witness for C6: `envBase` succeeds with result `rW`; forcing the
insert to fail (`dbFail := true`) leaves response and inserted row
unchanged. -/
theorem studia_C6_witness :
    (runPipeline envBase).response = Resp.ok rW ∧
      (runPipeline (setDbFail envBase true)).response = Resp.ok rW ∧
      (runPipeline (setDbFail envBase true)).inserted = (runPipeline envBase).inserted := by
  have h := studia_C6_insert_failure_not_fatal envBase true rW (by decide)
  exact ⟨by decide, h.1, h.2⟩

/-- Claim C7 amended: the current revision's parsing step strips
markdown code-fence markers and trims whitespace, then hands the ENTIRE
cleaned string to `JSON.parse` (no brace-span extraction); a parse
failure is fatal to the request and surfaced as the parse-failure
envelope, a success returns the parsed result. -/
theorem studia_C7_amended (env : Env) (body : RequestBody) (sp ah u raw : Str)
    (bytes : Bytes)
    (hio : env.isOptions = false)
    (hb : env.body = .ok body)
    (hsp : body.storagePath = some sp) (hspne : sp ≠ [])
    (hah : env.authHeader = some ah)
    (hu : env.getUser (replaceFirst (str "Bearer ") ah) = some u)
    (hdl : env.download sp = .ok bytes)
    (hprim : primaryRawOf env body.fileName bytes = some raw) (hraw : raw ≠ []) :
    (runPipeline env).response =
      (match env.jsonParse (cleanedOf raw) with
        | .ok r => Resp.ok r
        | .error m => Resp.fail (str "Failed to parse AI response: " ++ m)) := by
  have hfal : jsFalsyO body.storagePath = false := by
    rw [hsp]
    exact jsFalsyO_some_of_ne hspne
  have hdl' : env.download (body.storagePath.getD []) = .ok bytes := by
    rw [hsp]
    exact hdl
  have hrawf : jsFalsyO (primaryRawOf env body.fileName bytes) = false := by
    rw [hprim]
    exact jsFalsyO_some_of_ne hraw
  unfold runPipeline
  rw [hio]
  simp only [Bool.false_eq_true, if_false, hb, hfal, hah, hu, hdl']
  unfold afterDownload
  rw [hrawf]
  simp only [Bool.false_and, if_false]
  rw [hprim]
  unfold finishRun
  simp only [if_neg hraw]
  cases hj : env.jsonParse (cleanedOf raw) with
  | error m => simp [hj]
  | ok r => simp [hj]

/-- Parsed result used by the C7 scenario. -/
def rC7 : AnalysisResult := ⟨str "s2", str "kc2", str "fc2", str "qz2", str "hq2"⟩

/-- Environment for C7: the provider returns prose around a JSON
object, and the JSON parser accepts exactly the brace-delimited span and
rejects anything else. -/
def envC7 : Env :=
  { envBase with
    geminiResp := fun _ _ _ _ => some (str "note {1} end")
    jsonParse := fun s => if s = str "{1}" then .ok rC7 else .error (str "bad") }

/-- Counterexample to C7 as stated: the cleaned provider output contains
the brace span `"{1}"` (which the parser would accept), yet the request
fails — the current revision passes the whole cleaned string to
`JSON.parse` and performs no brace-span extraction. -/
theorem studia_C7_counterexample :
    specBraceSpan (cleanedOf (str "note {1} end")) = some (str "{1}") ∧
      envC7.jsonParse (str "{1}") = .ok rC7 ∧
      cleanedOf (str "note {1} end") ≠ str "{1}" ∧
      (runPipeline envC7).response = Resp.fail (str "Failed to parse AI response: bad") :=
  ⟨by decide, by rfl, by decide, by decide⟩

/-- Witness for amended C7: in `envC7` the parse of the full cleaned
string fails and the failure envelope is returned. -/
theorem studia_C7_amended_witness :
    primaryRawOf envC7 (str "doc.pdf") [] = some (str "note {1} end") ∧
      (runPipeline envC7).response =
        (match envC7.jsonParse (cleanedOf (str "note {1} end")) with
          | .ok r => Resp.ok r
          | .error m => Resp.fail (str "Failed to parse AI response: " ++ m)) := by
  have h := studia_C7_amended envC7 ⟨some (str "u1/doc.pdf"), str "doc.pdf", none⟩
    (str "u1/doc.pdf") (str "Bearer tok") (str "user-1") (str "note {1} end") []
    rfl rfl rfl (by decide) rfl (by decide) rfl (by decide) (by decide)
  exact ⟨by decide, h⟩
